import Mathlib

/-!
Verification development for the alchemical-factory module (`openmm/alchemy.py`).

The Python module builds, from a reference OpenMM `System`, alchemically
perturbed copies in which a designated ligand atom set has selected
interaction classes scaled by the factors of an `AlchemicalState`.

This file gives a shallow embedding of the module.  Force and system objects
are modelled as immutable Lean structures over exact rationals (floating
point rounding is not modelled); the Python `for`-loops that mutate a force
in place through `get.../set...` accessor pairs are translated as `foldl`
over `List.range` together with `List.set` / `List.getD`, and loops that only
append (`add...` accessors) are translated as indexed maps.  Python `Set`
membership coincides with membership in the underlying index list and is
modelled as list membership.
-/

set_option maxHeartbeats 1000000

/-- One point on the alchemical path (`AlchemicalState.__init__`):
four interpolation factors plus two annihilation flags whose defaults are
set in the constructor (`annihilateElectrostatics = True`,
`annihilateLennardJones = False`). -/
structure AlchemicalState where
  relativeRestraints : ℚ
  ligandElectrostatics : ℚ
  ligandLennardJones : ℚ
  ligandTorsions : ℚ
  annihilateElectrostatics : Bool := true
  annihilateLennardJones : Bool := false
deriving DecidableEq, Repr

/-- The `AlchemicalState` constructor: only the four factors are arguments;
the two annihilation flags take their constructor defaults. -/
def mkAlchemicalState (relativeRestraints ligandElectrostatics ligandLennardJones ligandTorsions : ℚ) : AlchemicalState :=
  { relativeRestraints := relativeRestraints
    ligandElectrostatics := ligandElectrostatics
    ligandLennardJones := ligandLennardJones
    ligandTorsions := ligandTorsions }

/-- Per-particle parameters of a `NonbondedForce` (charge, sigma, epsilon). -/
structure NonbondedParticle where
  charge : ℚ
  sigma : ℚ
  epsilon : ℚ
deriving DecidableEq, Inhabited, Repr

/-- One explicit pairwise exception of a `NonbondedForce`. -/
structure NonbondedException where
  iatom : ℕ
  jatom : ℕ
  chargeprod : ℚ
  sigma : ℚ
  epsilon : ℚ
deriving DecidableEq, Inhabited, Repr

/-- The nonbonded method of a `NonbondedForce` / `CustomNonbondedForce`. -/
inductive NonbondedMethod where
  | NoCutoff
  | CutoffNonPeriodic
  | CutoffPeriodic
  | Ewald
  | PME
deriving DecidableEq, Repr

/-- Data of an OpenMM `NonbondedForce`. -/
structure NonbondedForceData where
  particles : List NonbondedParticle
  exceptions : List NonbondedException
  method : NonbondedMethod
  cutoff : ℚ
deriving DecidableEq, Repr

/-- One torsion of a `PeriodicTorsionForce` (four atoms, periodicity, phase,
barrier height `k`). -/
structure PeriodicTorsion where
  particle1 : ℕ
  particle2 : ℕ
  particle3 : ℕ
  particle4 : ℕ
  periodicity : ℕ
  phase : ℚ
  k : ℚ
deriving DecidableEq, Inhabited, Repr

/-- Per-particle parameters of a `GBSAOBCForce` (charge, radius, scaling
factor). -/
structure GBParticle where
  charge : ℚ
  radius : ℚ
  scale : ℚ
deriving DecidableEq, Inhabited, Repr

/-- Data of an OpenMM `GBSAOBCForce`. -/
structure GBSAOBCForceData where
  particles : List GBParticle
  method : NonbondedMethod
  cutoff : ℚ
  solventDielectric : ℚ
  soluteDielectric : ℚ
deriving DecidableEq, Repr

/-- Data of an OpenMM `CustomExternalForce`: energy expression, global
parameters with default values, per-particle parameter names, and particle
terms (particle index plus parameter values). -/
structure CustomExternalForceData where
  energy : String
  globals : List (String × ℚ)
  perParticleParams : List String
  particles : List (ℕ × List ℚ)
deriving DecidableEq, Repr

/-- Data of an OpenMM `CustomBondForce`: energy expression, global
parameters, per-bond parameter names, and bond terms. -/
structure CustomBondForceData where
  energy : String
  globals : List (String × ℚ)
  perBondParams : List String
  bonds : List (ℕ × ℕ × List ℚ)
deriving DecidableEq, Repr

/-- Data of an OpenMM `CustomNonbondedForce` as built by the softcore
Lennard-Jones builder. -/
structure CustomNonbondedForceData where
  energy : String
  globals : List (String × ℚ)
  perParticleParams : List String
  particles : List (List ℚ)
  exclusions : List (ℕ × ℕ)
  method : NonbondedMethod
  cutoff : ℚ
deriving DecidableEq, Repr

/-- Scope of a computed value or energy term of a `CustomGBForce`. -/
inductive GBComputationScope where
  | SingleParticle
  | ParticlePairNoExclusions
deriving DecidableEq, Repr

/-- Data of an OpenMM `CustomGBForce` as built by the softcore GB builder. -/
structure CustomGBForceData where
  perParticleParams : List String
  method : NonbondedMethod
  cutoff : ℚ
  globals : List (String × ℚ)
  computedValues : List (String × String × GBComputationScope)
  energyTerms : List (String × GBComputationScope)
  particles : List (List ℚ)
deriving DecidableEq, Repr

/-- A force term of a `System`.  The kinds that `createPerturbedSystem`
dispatches on are explicit constructors; `other` stands for any further,
opaque force kind (tag plus opaque parameter payload). -/
inductive Force where
  | periodicTorsion (torsions : List PeriodicTorsion)
  | nonbonded (data : NonbondedForceData)
  | gbsaobc (data : GBSAOBCForceData)
  | customExternal (data : CustomExternalForceData)
  | customBond (data : CustomBondForceData)
  | customNonbonded (data : CustomNonbondedForceData)
  | customGB (data : CustomGBForceData)
  | other (tag : String) (payload : List ℚ)
deriving DecidableEq, Repr

/-- An OpenMM `System`: particle masses, distance constraints, default
periodic box vectors and an ordered list of force terms. -/
structure OMMSystem where
  particleMasses : List ℚ
  constraints : List (ℕ × ℕ × ℚ)
  boxVectors : (ℚ × ℚ × ℚ) × (ℚ × ℚ × ℚ) × (ℚ × ℚ × ℚ)
  forces : List Force
deriving DecidableEq, Repr

/-- The factory (`AbsoluteAlchemicalFactory`): the deep-copied reference
system and the deep-copied ligand atom index list captured by `__init__`.
The Python `ligand_atomset` is the `Set` of `ligand_atoms`; membership in it
coincides with membership in the list. -/
structure AbsoluteAlchemicalFactory where
  reference_system : OMMSystem
  ligand_atoms : List ℕ
deriving DecidableEq, Repr

/-- `AbsoluteAlchemicalFactory.__init__`: deep-copies the reference system
and the ligand atom list.  No validation of any kind is performed. -/
def AbsoluteAlchemicalFactory.init (reference_system : OMMSystem) (ligand_atoms : List ℕ) : AbsoluteAlchemicalFactory :=
  { reference_system := reference_system
    ligand_atoms := ligand_atoms }

/-- `AbsoluteAlchemicalFactory.defaultComplexProtocolImplicit`: the literal
list of 24 alchemical states of the complex-implicit preset. -/
def AbsoluteAlchemicalFactory.defaultComplexProtocolImplicit : List AlchemicalState :=
  [ mkAlchemicalState 0 1 1 1
  , mkAlchemicalState 0 0.75 1 1
  , mkAlchemicalState 0 0.50 1 1
  , mkAlchemicalState 0 0.25 1 1
  , mkAlchemicalState 0 0 1 1
  , mkAlchemicalState 0 0 0.95 1
  , mkAlchemicalState 0 0 0.90 1
  , mkAlchemicalState 0 0 0.80 1
  , mkAlchemicalState 0 0 0.75 1
  , mkAlchemicalState 0 0 0.70 1
  , mkAlchemicalState 0 0 0.65 1
  , mkAlchemicalState 0 0 0.60 1
  , mkAlchemicalState 0 0 0.55 1
  , mkAlchemicalState 0 0 0.50 1
  , mkAlchemicalState 0 0 0.45 1
  , mkAlchemicalState 0 0 0.40 1
  , mkAlchemicalState 0 0 0.35 1
  , mkAlchemicalState 0 0 0.30 1
  , mkAlchemicalState 0 0 0.25 1
  , mkAlchemicalState 0 0 0.20 1
  , mkAlchemicalState 0 0 0.15 1
  , mkAlchemicalState 0 0 0.10 1
  , mkAlchemicalState 0 0 0.05 1
  , mkAlchemicalState 0 0 0 1 ]

/-!
Loop combinators.  A Python loop `for i in range(len(l)): x = get(l,i); ...
set(l,i,f(i,x))` is translated as a `foldl` over `List.range l.length` whose
step reads index `i` with `List.getD`, rewrites it with `List.set`, and
threads any `add...` accumulators alongside.  `mapIdxFrom` and `seqFold` are
the reference shapes these folds are later proved equal to.
-/

/-- Index-aware map starting at offset `k`. -/
def mapIdxFrom (g : ℕ → α → β) : ℕ → List α → List β
  | _, [] => []
  | k, x :: t => g k x :: mapIdxFrom g (k + 1) t

/-- Index-aware left fold of an accumulator over a list, starting at
offset `k`. -/
def seqFold (h : ℕ → α → σ → σ) : ℕ → List α → σ → σ
  | _, [], s => s
  | k, x :: t, s => seqFold h (k + 1) t (h k x s)

theorem mapIdxFrom_length (g : ℕ → α → β) : ∀ (k : ℕ) (l : List α), (mapIdxFrom g k l).length = l.length := by
  intro k l
  induction l generalizing k with
  | nil => rfl
  | cons x t ih => simp [mapIdxFrom, ih]

theorem mapIdxFrom_succ (g : ℕ → α → β) : ∀ (k : ℕ) (l : List α), mapIdxFrom (fun i => g (i + 1)) k l = mapIdxFrom g (k + 1) l := by
  intro k l
  induction l generalizing k with
  | nil => rfl
  | cons x t ih => simp [mapIdxFrom, ih]

theorem mapIdxFrom_const (g : α → β) : ∀ (k : ℕ) (l : List α), mapIdxFrom (fun _ x => g x) k l = l.map g := by
  intro k l
  induction l generalizing k with
  | nil => rfl
  | cons x t ih => simp [mapIdxFrom, ih]

theorem mapIdxFrom_getD (g : ℕ → α → β) (d : α) (d' : β) :
    ∀ (k : ℕ) (l : List α) (i : ℕ), i < l.length →
      (mapIdxFrom g k l).getD i d' = g (k + i) (l.getD i d) := by
  intro k l
  induction l generalizing k with
  | nil => intro i hi; simp at hi
  | cons x t ih =>
      intro i hi
      cases i with
      | zero => rfl
      | succ j =>
          have hj : j < t.length := by simpa using hi
          simpa [mapIdxFrom, List.getD, Nat.add_assoc, Nat.add_comm 1 j] using ih (k + 1) j hj

theorem seqFold_succ (h : ℕ → α → σ → σ) :
    ∀ (k : ℕ) (l : List α) (s : σ), seqFold (fun i => h (i + 1)) k l s = seqFold h (k + 1) l s := by
  intro k l
  induction l generalizing k with
  | nil => intro s; rfl
  | cons x t ih => intro s; simp [seqFold, ih]

theorem seqFold_append_list (u : ℕ → α → List β) :
    ∀ (k : ℕ) (l : List α) (s : List β),
      seqFold (fun i x acc => acc ++ u i x) k l s = s ++ (mapIdxFrom u k l).join := by
  intro k l
  induction l generalizing k with
  | nil => intro s; simp [seqFold, mapIdxFrom]
  | cons x t ih => intro s; simp [seqFold, mapIdxFrom, ih]

theorem seqFold_pair (h₁ : ℕ → α → σ₁ → σ₁) (h₂ : ℕ → α → σ₂ → σ₂) :
    ∀ (k : ℕ) (l : List α) (s₁ : σ₁) (s₂ : σ₂),
      seqFold (fun i x s => (h₁ i x s.1, h₂ i x s.2)) k l (s₁, s₂)
        = (seqFold h₁ k l s₁, seqFold h₂ k l s₂) := by
  intro k l
  induction l generalizing k with
  | nil => intro s₁ s₂; rfl
  | cons x t ih => intro s₁ s₂; simp [seqFold, ih]

theorem list_set_getD_self (d : α) : ∀ (l : List α) (i : ℕ), l.set i (l.getD i d) = l := by
  intro l
  induction l with
  | nil => intro i; rfl
  | cons x t ih =>
      intro i
      cases i with
      | zero => rfl
      | succ j =>
          show x :: t.set j (t.getD j d) = x :: t
          rw [ih j]

theorem foldl_set_cons (d : α) (g : ℕ → α → α) (is : List ℕ) :
    ∀ (b : α) (t : List α),
      is.foldl (fun L i => L.set (i + 1) (g (i + 1) (L.getD (i + 1) d))) (b :: t)
        = b :: is.foldl (fun L i => L.set i (g (i + 1) (L.getD i d))) t := by
  induction is with
  | nil => intro b t; rfl
  | cons i is ih =>
      intro b t
      simp only [List.foldl_cons]
      have hset : (b :: t).set (i + 1) (g (i + 1) ((b :: t).getD (i + 1) d))
          = b :: t.set i (g (i + 1) (t.getD i d)) := rfl
      rw [hset, ih]

theorem foldl_range_set (d : α) :
    ∀ (l : List α) (g : ℕ → α → α),
      (List.range l.length).foldl (fun L i => L.set i (g i (L.getD i d))) l = mapIdxFrom g 0 l := by
  intro l
  induction l with
  | nil => intro g; rfl
  | cons x t ih =>
      intro g
      rw [List.length_cons, List.range_succ_eq_map, List.foldl_cons, List.foldl_map]
      have h0 : (x :: t).set 0 (g 0 ((x :: t).getD 0 d)) = g 0 x :: t := rfl
      rw [h0]
      have hstep : (fun (L : List α) (i : ℕ) => L.set (Nat.succ i) (g (Nat.succ i) (L.getD (Nat.succ i) d)))
          = fun (L : List α) (i : ℕ) => L.set (i + 1) (g (i + 1) (L.getD (i + 1) d)) := rfl
      rw [hstep, foldl_set_cons, ih (fun i => g (i + 1)), mapIdxFrom_succ]
      rfl

theorem foldl_set_pair_cons (d : α) (g : ℕ → α → α) (h : ℕ → α → σ → σ) (is : List ℕ) :
    ∀ (b : α) (t : List α) (s : σ),
      is.foldl (fun (st : List α × σ) i =>
          (st.1.set (i + 1) (g (i + 1) (st.1.getD (i + 1) d)), h (i + 1) (st.1.getD (i + 1) d) st.2)) (b :: t, s)
        = (fun r : List α × σ => (b :: r.1, r.2))
            (is.foldl (fun (st : List α × σ) i =>
              (st.1.set i (g (i + 1) (st.1.getD i d)), h (i + 1) (st.1.getD i d) st.2)) (t, s)) := by
  induction is with
  | nil => intro b t s; rfl
  | cons i is ih =>
      intro b t s
      simp only [List.foldl_cons]
      have hset : (b :: t).set (i + 1) (g (i + 1) ((b :: t).getD (i + 1) d))
          = b :: t.set i (g (i + 1) (t.getD i d)) := rfl
      have hget : (b :: t).getD (i + 1) d = t.getD i d := rfl
      rw [hset, hget, ih]

theorem foldl_range_set_pair (d : α) :
    ∀ (l : List α) (g : ℕ → α → α) (h : ℕ → α → σ → σ) (s : σ),
      (List.range l.length).foldl (fun (st : List α × σ) i =>
          (st.1.set i (g i (st.1.getD i d)), h i (st.1.getD i d) st.2)) (l, s)
        = (mapIdxFrom g 0 l, seqFold h 0 l s) := by
  intro l
  induction l with
  | nil => intro g h s; rfl
  | cons x t ih =>
      intro g h s
      rw [List.length_cons, List.range_succ_eq_map, List.foldl_cons, List.foldl_map]
      have h0 : ((x :: t).set 0 (g 0 ((x :: t).getD 0 d)), h 0 ((x :: t).getD 0 d) s)
          = ((g 0 x :: t : List α), h 0 x s) := rfl
      rw [h0]
      have hstep : (fun (st : List α × σ) (i : ℕ) =>
            (st.1.set (Nat.succ i) (g (Nat.succ i) (st.1.getD (Nat.succ i) d)),
              h (Nat.succ i) (st.1.getD (Nat.succ i) d) st.2))
          = fun (st : List α × σ) (i : ℕ) =>
            (st.1.set (i + 1) (g (i + 1) (st.1.getD (i + 1) d)), h (i + 1) (st.1.getD (i + 1) d) st.2) := rfl
      rw [hstep, foldl_set_pair_cons, ih (fun i => g (i + 1)) (fun i => h (i + 1)) (h 0 x s),
        mapIdxFrom_succ, seqFold_succ]
      rfl

theorem join_map_ite (p : α → Prop) [DecidablePred p] (b : α → β) :
    ∀ l : List α, (l.map (fun x => if p x then [b x] else [])).join
      = (l.filter (fun x => decide (p x))).map b := by
  intro l
  induction l with
  | nil => rfl
  | cons x t ih =>
      by_cases hx : p x <;> simp [hx, ih, List.filter_cons]

theorem getD_map_of_lt (f : α → β) (d : α) (d' : β) :
    ∀ (l : List α) (i : ℕ), i < l.length → (l.map f).getD i d' = f (l.getD i d) := by
  intro l
  induction l with
  | nil => intro i hi; simp at hi
  | cons x t ih =>
      intro i hi
      cases i with
      | zero => rfl
      | succ j =>
          have hj : j < t.length := by simpa using hi
          simpa [List.getD] using ih j hj

/-!
Energy expressions built by the softcore Lennard-Jones builder
(`_alchemicallyModifyLennardJones`).  The lone call site uses the default
softcore constants `alpha=0.5, a=b=c=1`; Python `%f` formatting renders them
with six decimals.
-/

/-- Energy expression of the softcore `CustomNonbondedForce`; the definition
of `lambda` depends on the `annihilateLennardJones` flag. -/
def customNonbondedEnergyExpression (annihilateLennardJones : Bool) : String :=
  "4*epsilon*(lambda^a)*x*(x-1.0);" ++ "x = (1.0/(alpha*(1.0-lambda)^b + (r/sigma)^c))^(6/c);" ++ "epsilon = sqrt(epsilon1*epsilon2);" ++ "sigma = 0.5*(sigma1 + sigma2);" ++
  (if annihilateLennardJones then
    "lambda = lennard_jones_lambda*(alchemical1*(1-alchemical2) + alchemical2*(1-alchemical1) + alchemical1*alchemical2);"
  else
    "lambda = lennard_jones_lambda*(alchemical1*(1-alchemical2) + alchemical2*(1-alchemical1)) + alchemical1*alchemical2;") ++
  "alpha = 0.500000;" ++ "a = 1.000000; b = 1.000000; c = 1.000000;"

/-- Energy expression of the softcore exception `CustomBondForce`. -/
def customBondEnergyExpression : String :=
  "4*epsilon*(lambda^a)*x*(x-1.0);" ++ "x = (1.0/(alpha*(1.0-lambda)^b + (r/sigma)^c))^(6/c);" ++ "alpha = 0.500000;" ++ "a = 1.000000; b = 1.000000; c = 1.000000;" ++ "lambda = lennard_jones_lambda;"

/-- Result of `_alchemicallyModifyLennardJones`: the mutated
`NonbondedForce`, the new softcore `CustomNonbondedForce`, and (only when
annihilating) the new softcore exception `CustomBondForce`.  In the built
system the custom forces appear directly after the nonbonded force, in this
order. -/
structure LJModification where
  nonbonded_force : NonbondedForceData
  custom_nonbonded_force : CustomNonbondedForceData
  custom_bond_force : Option CustomBondForceData
deriving DecidableEq, Repr

/-- `AbsoluteAlchemicalFactory._alchemicallyModifyLennardJones` (lines
322-417): zero the Lennard-Jones epsilon of every alchemically modified
particle of the nonbonded force and tag every particle into the new softcore
`CustomNonbondedForce`; add an exclusion there for every exception; under
`annihilateLennardJones`, additionally zero the epsilon of every
ligand-ligand exception and give it a softcore `CustomBondForce` bond (with
the parameters read before zeroing).  Ewald and PME are downgraded to
`CutoffPeriodic` for the custom force. -/
def AbsoluteAlchemicalFactory.alchemicallyModifyLennardJones (nonbonded_force : NonbondedForceData) (alchemical_atom_indices : List ℕ) (alchemical_state : AlchemicalState) : LJModification :=
  let pr :=
    (List.range nonbonded_force.particles.length).foldl
      (fun (st : List NonbondedParticle × List (List ℚ)) particle_index =>
        let p := st.1.getD particle_index default
        if particle_index ∈ alchemical_atom_indices then
          (st.1.set particle_index { charge := p.charge, sigma := p.sigma, epsilon := p.epsilon * 0 },
            st.2 ++ [[p.sigma, p.epsilon, 1]])
        else
          (st.1, st.2 ++ [[p.sigma, p.epsilon, 0]]))
      (nonbonded_force.particles, [])
  let er :=
    (List.range nonbonded_force.exceptions.length).foldl
      (fun (st : List NonbondedException × (List (ℕ × ℕ) × List (ℕ × ℕ × List ℚ))) exception_index =>
        let e := st.1.getD exception_index default
        if alchemical_state.annihilateLennardJones ∧ e.iatom ∈ alchemical_atom_indices ∧ e.jatom ∈ alchemical_atom_indices then
          (st.1.set exception_index
              { iatom := e.iatom, jatom := e.jatom, chargeprod := e.chargeprod, sigma := e.sigma, epsilon := e.epsilon * 0 },
            (st.2.1 ++ [(e.iatom, e.jatom)], st.2.2 ++ [(e.iatom, e.jatom, [e.sigma, e.epsilon])]))
        else
          (st.1, (st.2.1 ++ [(e.iatom, e.jatom)], st.2.2)))
      (nonbonded_force.exceptions, ([], []))
  { nonbonded_force :=
      { particles := pr.1
        exceptions := er.1
        method := nonbonded_force.method
        cutoff := nonbonded_force.cutoff }
    custom_nonbonded_force :=
      { energy := customNonbondedEnergyExpression alchemical_state.annihilateLennardJones
        globals := [("lennard_jones_lambda", alchemical_state.ligandLennardJones)]
        perParticleParams := ["sigma", "epsilon", "alchemical"]
        particles := pr.2
        exclusions := er.2.1
        method :=
          if nonbonded_force.method ∈ [NonbondedMethod.Ewald, NonbondedMethod.PME] then
            NonbondedMethod.CutoffPeriodic
          else nonbonded_force.method
        cutoff := nonbonded_force.cutoff }
    custom_bond_force :=
      if alchemical_state.annihilateLennardJones then
        some
          { energy := customBondEnergyExpression
            globals := [("lennard_jones_lambda", alchemical_state.ligandLennardJones)]
            perBondParams := ["sigma", "epsilon"]
            bonds := er.2.2 }
      else none }

/-- Computed value `I` of the softcore `CustomGBForce`. -/
def gbComputedValueI : String :=
  "lambda2*step(r+sr2-or1)*0.5*(1/L-1/U+0.25*(r-sr2^2/r)*(1/(U^2)-1/(L^2))+0.5*log(L/U)/r);" ++ "U=r+sr2;" ++ "L=max(or1, D);" ++ "D=abs(r-sr2);" ++ "sr2 = scale2*or2;" ++ "or1 = radius1-offset; or2 = radius2-offset"

/-- Computed value `B` (effective Born radius) of the softcore
`CustomGBForce`. -/
def gbComputedValueB : String :=
  "1/(1/or-tanh(psi-0.8*psi^2+4.85*psi^3)/radius);" ++ "psi=I*or; or=radius-offset"

/-- Self-energy term of the softcore `CustomGBForce`. -/
def gbEnergySelf : String :=
  "-0.5*138.935485*(1/soluteDielectric-1/solventDielectric)*q^2/B"

/-- ACE surface-area energy term of the softcore `CustomGBForce`. -/
def gbEnergyACE : String :=
  "lambda*28.3919551*(radius+0.14)^2*(radius/B)^6"

/-- Pairwise energy term of the softcore `CustomGBForce`. -/
def gbEnergyPair : String :=
  "-138.935485*(1/soluteDielectric-1/solventDielectric)*q1*q2/f;" ++ "f=sqrt(r^2+B1*B2*exp(-r^2/(4*B1*B2)))"

/-- `AbsoluteAlchemicalFactory._createCustomSoftcoreGBOBC` (lines 419-487):
build the softcore OBC generalized-Born replacement `CustomGBForce`.  The
lone call site uses the default `sasa_model='ACE'`, so the ACE surface-area
energy term is present.  Each particle carries `[charge * lambda, radius,
scale, lambda]` with `lambda = particle_lambdas i`. -/
def AbsoluteAlchemicalFactory.createCustomSoftcoreGBOBC (reference_force : GBSAOBCForceData) (particle_lambdas : ℕ → ℚ) : CustomGBForceData :=
  { perParticleParams := ["q", "radius", "scale", "lambda"]
    method := reference_force.method
    cutoff := reference_force.cutoff
    globals :=
      [ ("solventDielectric", reference_force.solventDielectric)
      , ("soluteDielectric", reference_force.soluteDielectric)
      , ("offset", 0.009) ]
    computedValues :=
      [ ("I", gbComputedValueI, GBComputationScope.ParticlePairNoExclusions)
      , ("B", gbComputedValueB, GBComputationScope.SingleParticle) ]
    energyTerms :=
      [ (gbEnergySelf, GBComputationScope.SingleParticle)
      , (gbEnergyACE, GBComputationScope.SingleParticle)
      , (gbEnergyPair, GBComputationScope.ParticlePairNoExclusions) ]
    particles :=
      mapIdxFrom
        (fun i p => [p.charge * particle_lambdas i, p.radius, p.scale, particle_lambdas i]) 0
        reference_force.particles }

/-- The electrostatics modification of the copied `NonbondedForce`
(`createPerturbedSystem`, lines 613-631): scale the charge of every ligand
particle by `ligandElectrostatics`, and, when `annihilateElectrostatics` is
set, scale the charge product of every ligand-ligand exception by
`ligandElectrostatics**2`. -/
def AbsoluteAlchemicalFactory.modifyElectrostatics (ligand_atomset : List ℕ) (alchemical_state : AlchemicalState) (force : NonbondedForceData) : NonbondedForceData :=
  let particles :=
    (List.range force.particles.length).foldl
      (fun (L : List NonbondedParticle) particle_index =>
        L.set particle_index
          (let p := L.getD particle_index default
           { charge :=
               if particle_index ∈ ligand_atomset then p.charge * alchemical_state.ligandElectrostatics
               else p.charge
             sigma := p.sigma
             epsilon := p.epsilon }))
      force.particles
  let exceptions :=
    (List.range force.exceptions.length).foldl
      (fun (L : List NonbondedException) exception_index =>
        L.set exception_index
          (let e := L.getD exception_index default
           { iatom := e.iatom
             jatom := e.jatom
             chargeprod :=
               if e.iatom ∈ ligand_atomset ∧ e.jatom ∈ ligand_atomset then
                 (if alchemical_state.annihilateElectrostatics then
                   e.chargeprod * alchemical_state.ligandElectrostatics ^ 2
                 else e.chargeprod)
               else e.chargeprod
             sigma := e.sigma
             epsilon := e.epsilon }))
      force.exceptions
  { particles := particles
    exceptions := exceptions
    method := force.method
    cutoff := force.cutoff }

/-- Per-force dispatch of `createPerturbedSystem` (lines 592-680).  Returns
the list of forces the branch adds to the new system, in `addForce` order.
A reference force of unrecognized kind falls into the final catch-all branch
and is deep-copied without modification. -/
def AbsoluteAlchemicalFactory.processForce (self : AbsoluteAlchemicalFactory) (alchemical_state : AlchemicalState) : Force → List Force
  | Force.periodicTorsion torsions =>
      [Force.periodicTorsion (torsions.map (fun t =>
        if t.particle1 ∈ self.ligand_atoms ∧ t.particle2 ∈ self.ligand_atoms ∧
            t.particle3 ∈ self.ligand_atoms ∧ t.particle4 ∈ self.ligand_atoms then
          { t with k := t.k * alchemical_state.ligandTorsions }
        else t))]
  | Force.nonbonded data =>
      let force :=
        if alchemical_state.ligandElectrostatics ≠ 1 then
          AbsoluteAlchemicalFactory.modifyElectrostatics self.ligand_atoms alchemical_state data
        else data
      if alchemical_state.ligandLennardJones ≠ 1 then
        let r := AbsoluteAlchemicalFactory.alchemicallyModifyLennardJones force self.ligand_atoms alchemical_state
        [Force.nonbonded r.nonbonded_force, Force.customNonbonded r.custom_nonbonded_force] ++
          (match r.custom_bond_force with
            | some cb => [Force.customBond cb]
            | none => [])
      else [Force.nonbonded force]
  | Force.gbsaobc data =>
      if alchemical_state.ligandElectrostatics ≠ 1 then
        [Force.customGB (AbsoluteAlchemicalFactory.createCustomSoftcoreGBOBC data
          (fun i => if i ∈ self.ligand_atoms then alchemical_state.ligandElectrostatics else 1))]
      else [Force.gbsaobc data]
  | Force.customExternal data =>
      [Force.customExternal
        { energy := data.energy
          globals := data.globals
          perParticleParams := data.perParticleParams
          particles := data.particles }]
  | Force.customBond data =>
      [Force.customBond
        { energy := data.energy
          globals := data.globals
          perBondParams := data.perBondParams
          bonds := data.bonds }]
  | f => [f]

/-- `AbsoluteAlchemicalFactory.createPerturbedSystem` (lines 489-687): build
a fresh system with the reference's box vectors, particle masses and
constraints, then process every reference force in order. -/
def AbsoluteAlchemicalFactory.createPerturbedSystem (self : AbsoluteAlchemicalFactory) (alchemical_state : AlchemicalState) : OMMSystem :=
  let reference_system := self.reference_system
  { boxVectors := reference_system.boxVectors
    particleMasses := reference_system.particleMasses
    constraints := reference_system.constraints
    forces := reference_system.forces.bind (AbsoluteAlchemicalFactory.processForce self alchemical_state) }

/-- `AbsoluteAlchemicalFactory.createPerturbedSystems` (lines 689-725),
with the factory (`self`) threaded explicitly through the sequence of
`createPerturbedSystem` calls so that any mutation of the captured reference
would be observable in the returned factory. -/
def AbsoluteAlchemicalFactory.createPerturbedSystems (self : AbsoluteAlchemicalFactory) (alchemical_states : List AlchemicalState) : AbsoluteAlchemicalFactory × List OMMSystem :=
  alchemical_states.foldl
    (fun acc alchemical_state => (acc.1, acc.2 ++ [acc.1.createPerturbedSystem alchemical_state]))
    (self, [])

/-!
Mathematical form of the softcore pair energy, with the default constants
`alpha = 0.5`, `a = b = c = 1` substituted (so the outer exponent `6/c` is
`6`), over exact rationals.  The checked variants guard every division of
the written expression and return `none` where a denominator vanishes.
-/

/-- Softcore auxiliary `x = (1/(alpha*(1-lambda)^b + (r/sigma)^c))^(6/c)`
at the default constants. -/
def softcoreX (lam r sigma : ℚ) : ℚ :=
  (1 / ((1 / 2) * (1 - lam) ^ 1 + (r / sigma) ^ 1)) ^ 6

/-- Softcore pair energy `4*epsilon*(lambda^a)*x*(x-1.0)` at the default
constants. -/
def softcorePairEnergy (epsilon lam r sigma : ℚ) : ℚ :=
  4 * epsilon * lam ^ 1 * softcoreX lam r sigma * (softcoreX lam r sigma - 1)

/-- Guarded softcore pair energy: `none` when `sigma = 0` (`r/sigma`
undefined) or when the softcore denominator vanishes. -/
def softcorePairEnergyChecked (epsilon lam r sigma : ℚ) : Option ℚ :=
  if sigma = 0 then none
  else if (1 / 2) * (1 - lam) ^ 1 + (r / sigma) ^ 1 = 0 then none
  else some (softcorePairEnergy epsilon lam r sigma)

/-- The unmodified Lennard-Jones pair potential
`4*epsilon*((sigma/r)^12 - (sigma/r)^6)`. -/
def lennardJonesEnergy (epsilon sigma r : ℚ) : ℚ :=
  4 * epsilon * ((sigma / r) ^ 12 - (sigma / r) ^ 6)

/-- Guarded Lennard-Jones pair potential: `none` at `r = 0`, where
`sigma/r` is undefined. -/
def lennardJonesEnergyChecked (epsilon sigma r : ℚ) : Option ℚ :=
  if r = 0 then none else some (lennardJonesEnergy epsilon sigma r)

theorem join_mapIdxFrom_singleton (v : ℕ → α → β) :
    ∀ (k : ℕ) (l : List α), (mapIdxFrom (fun i x => [v i x]) k l).join = mapIdxFrom v k l := by
  intro k l
  induction l generalizing k with
  | nil => rfl
  | cons x t ih => simp [mapIdxFrom, ih]

/-- The particle loop of the electrostatics modification, characterized as
an indexed map over the original particle list. -/
theorem modifyElectrostatics_particles_spec (lig : List ℕ) (st : AlchemicalState) (nb : NonbondedForceData) :
    (AbsoluteAlchemicalFactory.modifyElectrostatics lig st nb).particles
      = mapIdxFrom (fun i p =>
          ({ charge := if i ∈ lig then p.charge * st.ligandElectrostatics else p.charge
             sigma := p.sigma
             epsilon := p.epsilon } : NonbondedParticle)) 0 nb.particles :=
  foldl_range_set default nb.particles
    (fun i p =>
      { charge := if i ∈ lig then p.charge * st.ligandElectrostatics else p.charge
        sigma := p.sigma
        epsilon := p.epsilon })

/-- The exception loop of the electrostatics modification, characterized as
a plain map over the original exception list. -/
theorem modifyElectrostatics_exceptions_spec (lig : List ℕ) (st : AlchemicalState) (nb : NonbondedForceData) :
    (AbsoluteAlchemicalFactory.modifyElectrostatics lig st nb).exceptions
      = nb.exceptions.map (fun e =>
          ({ iatom := e.iatom
             jatom := e.jatom
             chargeprod :=
               if e.iatom ∈ lig ∧ e.jatom ∈ lig then
                 (if st.annihilateElectrostatics then e.chargeprod * st.ligandElectrostatics ^ 2
                 else e.chargeprod)
               else e.chargeprod
             sigma := e.sigma
             epsilon := e.epsilon } : NonbondedException)) := by
  refine Eq.trans
    (foldl_range_set default nb.exceptions
      (fun _ e =>
        { iatom := e.iatom
          jatom := e.jatom
          chargeprod :=
            if e.iatom ∈ lig ∧ e.jatom ∈ lig then
              (if st.annihilateElectrostatics then e.chargeprod * st.ligandElectrostatics ^ 2
              else e.chargeprod)
            else e.chargeprod
          sigma := e.sigma
          epsilon := e.epsilon })) ?_
  exact mapIdxFrom_const _ 0 nb.exceptions

/-- The exception loop of the softcore Lennard-Jones builder, characterized
by: the rewritten exception list (epsilon zeroed exactly for ligand-ligand
exceptions under annihilation), the exclusion list (one exclusion per
exception, unconditionally), and the softcore bond list (one bond per
ligand-ligand exception under annihilation, carrying the parameters read
before zeroing). -/
theorem lj_exception_fold_spec (nb : NonbondedForceData) (alch : List ℕ) (st : AlchemicalState) :
    (List.range nb.exceptions.length).foldl
      (fun (s : List NonbondedException × (List (ℕ × ℕ) × List (ℕ × ℕ × List ℚ))) exception_index =>
        let e := s.1.getD exception_index default
        if st.annihilateLennardJones ∧ e.iatom ∈ alch ∧ e.jatom ∈ alch then
          (s.1.set exception_index
              { iatom := e.iatom, jatom := e.jatom, chargeprod := e.chargeprod, sigma := e.sigma, epsilon := e.epsilon * 0 },
            (s.2.1 ++ [(e.iatom, e.jatom)], s.2.2 ++ [(e.iatom, e.jatom, [e.sigma, e.epsilon])]))
        else
          (s.1, (s.2.1 ++ [(e.iatom, e.jatom)], s.2.2)))
      (nb.exceptions, ([], []))
    = (nb.exceptions.map (fun e =>
          if st.annihilateLennardJones ∧ e.iatom ∈ alch ∧ e.jatom ∈ alch then
            { e with epsilon := e.epsilon * 0 }
          else e),
        (nb.exceptions.map (fun e => (e.iatom, e.jatom)),
          (nb.exceptions.filter
              (fun e => decide (st.annihilateLennardJones ∧ e.iatom ∈ alch ∧ e.jatom ∈ alch))).map
            (fun e => (e.iatom, e.jatom, [e.sigma, e.epsilon])))) := by
  have hstep :
      (fun (s : List NonbondedException × (List (ℕ × ℕ) × List (ℕ × ℕ × List ℚ))) (i : ℕ) =>
        if st.annihilateLennardJones ∧ (s.1.getD i default).iatom ∈ alch ∧ (s.1.getD i default).jatom ∈ alch then
          (s.1.set i
              { iatom := (s.1.getD i default).iatom, jatom := (s.1.getD i default).jatom,
                chargeprod := (s.1.getD i default).chargeprod, sigma := (s.1.getD i default).sigma,
                epsilon := (s.1.getD i default).epsilon * 0 },
            (s.2.1 ++ [((s.1.getD i default).iatom, (s.1.getD i default).jatom)],
              s.2.2 ++ [((s.1.getD i default).iatom, (s.1.getD i default).jatom,
                [(s.1.getD i default).sigma, (s.1.getD i default).epsilon])]))
        else
          (s.1, (s.2.1 ++ [((s.1.getD i default).iatom, (s.1.getD i default).jatom)], s.2.2)))
      = fun (s : List NonbondedException × (List (ℕ × ℕ) × List (ℕ × ℕ × List ℚ))) (i : ℕ) =>
          (s.1.set i
            (if st.annihilateLennardJones ∧ (s.1.getD i default).iatom ∈ alch ∧ (s.1.getD i default).jatom ∈ alch then
              { iatom := (s.1.getD i default).iatom, jatom := (s.1.getD i default).jatom,
                chargeprod := (s.1.getD i default).chargeprod, sigma := (s.1.getD i default).sigma,
                epsilon := (s.1.getD i default).epsilon * 0 }
            else s.1.getD i default),
          (s.2.1 ++ [((s.1.getD i default).iatom, (s.1.getD i default).jatom)],
            s.2.2 ++ (if st.annihilateLennardJones ∧ (s.1.getD i default).iatom ∈ alch ∧ (s.1.getD i default).jatom ∈ alch then
              [((s.1.getD i default).iatom, (s.1.getD i default).jatom,
                [(s.1.getD i default).sigma, (s.1.getD i default).epsilon])] else []))) := by
    funext s i
    by_cases h : st.annihilateLennardJones ∧ (s.1.getD i default).iatom ∈ alch ∧ (s.1.getD i default).jatom ∈ alch
    · rw [if_pos h, if_pos h, if_pos h]
    · rw [if_neg h, if_neg h, if_neg h, list_set_getD_self, List.append_nil]
  refine Eq.trans
    (congrArg
      (fun F => (List.range nb.exceptions.length).foldl F
        (nb.exceptions, (([] : List (ℕ × ℕ)), ([] : List (ℕ × ℕ × List ℚ))))) hstep) ?_
  refine Eq.trans
    (foldl_range_set_pair (default : NonbondedException) nb.exceptions
      (fun _ e =>
        if st.annihilateLennardJones ∧ e.iatom ∈ alch ∧ e.jatom ∈ alch then
          { e with epsilon := e.epsilon * 0 }
        else e)
      (fun _ e acc =>
        (acc.1 ++ [(e.iatom, e.jatom)],
          acc.2 ++ (if st.annihilateLennardJones ∧ e.iatom ∈ alch ∧ e.jatom ∈ alch then
            [(e.iatom, e.jatom, [e.sigma, e.epsilon])] else [])))
      (([] : List (ℕ × ℕ)), ([] : List (ℕ × ℕ × List ℚ)))) ?_
  refine Prod.ext ?_ (Prod.ext ?_ ?_)
  · exact mapIdxFrom_const _ 0 nb.exceptions
  · refine Eq.trans (congrArg Prod.fst (seqFold_pair
      (fun (_ : ℕ) (e : NonbondedException) (acc : List (ℕ × ℕ)) => acc ++ [(e.iatom, e.jatom)])
      (fun (_ : ℕ) (e : NonbondedException) (acc : List (ℕ × ℕ × List ℚ)) =>
        acc ++ (if st.annihilateLennardJones ∧ e.iatom ∈ alch ∧ e.jatom ∈ alch then
          [(e.iatom, e.jatom, [e.sigma, e.epsilon])] else []))
      0 nb.exceptions [] [])) ?_
    refine Eq.trans (seqFold_append_list (fun _ e => [(e.iatom, e.jatom)]) 0 nb.exceptions []) ?_
    rw [List.nil_append, join_mapIdxFrom_singleton]
    exact mapIdxFrom_const _ 0 nb.exceptions
  · refine Eq.trans (congrArg Prod.snd (seqFold_pair
      (fun (_ : ℕ) (e : NonbondedException) (acc : List (ℕ × ℕ)) => acc ++ [(e.iatom, e.jatom)])
      (fun (_ : ℕ) (e : NonbondedException) (acc : List (ℕ × ℕ × List ℚ)) =>
        acc ++ (if st.annihilateLennardJones ∧ e.iatom ∈ alch ∧ e.jatom ∈ alch then
          [(e.iatom, e.jatom, [e.sigma, e.epsilon])] else []))
      0 nb.exceptions [] [])) ?_
    refine Eq.trans (seqFold_append_list
      (fun _ e =>
        if st.annihilateLennardJones ∧ e.iatom ∈ alch ∧ e.jatom ∈ alch then
          [(e.iatom, e.jatom, [e.sigma, e.epsilon])] else [])
      0 nb.exceptions []) ?_
    rw [List.nil_append]
    refine Eq.trans (congrArg List.join (mapIdxFrom_const
      (fun e =>
        if st.annihilateLennardJones ∧ e.iatom ∈ alch ∧ e.jatom ∈ alch then
          [(e.iatom, e.jatom, [e.sigma, e.epsilon])] else [])
      0 nb.exceptions)) ?_
    exact join_map_ite _ _ nb.exceptions

/-- Exception list of the nonbonded force after the softcore Lennard-Jones
builder: epsilon is zeroed exactly for the ligand-ligand exceptions under
annihilation; all other exceptions are untouched. -/
theorem lj_exceptions_spec (nb : NonbondedForceData) (alch : List ℕ) (st : AlchemicalState) :
    (AbsoluteAlchemicalFactory.alchemicallyModifyLennardJones nb alch st).nonbonded_force.exceptions
      = nb.exceptions.map (fun e =>
          if st.annihilateLennardJones ∧ e.iatom ∈ alch ∧ e.jatom ∈ alch then
            { e with epsilon := e.epsilon * 0 }
          else e) :=
  congrArg (fun x => x.1) (lj_exception_fold_spec nb alch st)

/-- Exclusion list of the softcore `CustomNonbondedForce`: one exclusion per
exception of the original nonbonded force, unconditionally. -/
theorem lj_exclusions_spec (nb : NonbondedForceData) (alch : List ℕ) (st : AlchemicalState) :
    (AbsoluteAlchemicalFactory.alchemicallyModifyLennardJones nb alch st).custom_nonbonded_force.exclusions
      = nb.exceptions.map (fun e => (e.iatom, e.jatom)) :=
  congrArg (fun x => x.2.1) (lj_exception_fold_spec nb alch st)

/-- The softcore exception `CustomBondForce` exists exactly under
`annihilateLennardJones` and holds one bond per ligand-ligand exception. -/
theorem lj_custom_bond_spec (nb : NonbondedForceData) (alch : List ℕ) (st : AlchemicalState) :
    (AbsoluteAlchemicalFactory.alchemicallyModifyLennardJones nb alch st).custom_bond_force
      = if st.annihilateLennardJones then
          some
            { energy := customBondEnergyExpression
              globals := [("lennard_jones_lambda", st.ligandLennardJones)]
              perBondParams := ["sigma", "epsilon"]
              bonds :=
                (nb.exceptions.filter
                    (fun e => decide (st.annihilateLennardJones ∧ e.iatom ∈ alch ∧ e.jatom ∈ alch))).map
                  (fun e => (e.iatom, e.jatom, [e.sigma, e.epsilon])) }
        else none :=
  congrArg
    (fun bl => if st.annihilateLennardJones then
        some
          ({ energy := customBondEnergyExpression
             globals := [("lennard_jones_lambda", st.ligandLennardJones)]
             perBondParams := ["sigma", "epsilon"]
             bonds := bl } : CustomBondForceData)
      else none)
    (congrArg (fun x => x.2.2) (lj_exception_fold_spec nb alch st))

/-!
Concrete systems used to instantiate the claims.
-/

/-- A three-particle reference system whose only force term is of a kind the
dispatch does not recognize (an Andersen thermostat). -/
def unhandledForceSystem : OMMSystem :=
  { particleMasses := [16, 1, 1]
    constraints := []
    boxVectors := ((2, 0, 0), (0, 2, 0), (0, 0, 2))
    forces := [Force.other "AndersenThermostat" [298, 1]] }

/-- Factory over `unhandledForceSystem` with ligand atom 0. -/
def unhandledForceFactory : AbsoluteAlchemicalFactory :=
  AbsoluteAlchemicalFactory.init unhandledForceSystem [0]

/-- A three-particle reference system with one constraint and no forces. -/
def smallReferenceSystem : OMMSystem :=
  { particleMasses := [16, 1, 1]
    constraints := [(0, 1, 1 / 10)]
    boxVectors := ((2, 0, 0), (0, 2, 0), (0, 0, 2))
    forces := [] }

/-- C2 counterexample: on a concrete reference system whose only force term
is of an unrecognized kind, `createPerturbedSystem` (at a genuinely
alchemical state) returns normally and the term appears in the output,
copied value-for-value — it is not rejected with an error, contradicting
the claim that an unrecognized force kind is a fatal, explicit error. -/
theorem C2_unhandled_kind_counterexample :
    (unhandledForceFactory.createPerturbedSystem (mkAlchemicalState 0 (1 / 2) (1 / 2) (1 / 2))).forces
      = [Force.other "AndersenThermostat" [298, 1]] := rfl

/-- C2 (amended): a reference force term whose kind is not one of the
explicitly handled kinds falls into the catch-all dispatch branch and is
copied value-for-value, unmodified, into the built system; no error is
raised. -/
theorem C2_unhandled_kind_pass_through (f : AbsoluteAlchemicalFactory) (st : AlchemicalState)
    (tag : String) (payload : List ℚ) (cnb : CustomNonbondedForceData) (cgb : CustomGBForceData) :
    f.processForce st (Force.other tag payload) = [Force.other tag payload] ∧
    f.processForce st (Force.customNonbonded cnb) = [Force.customNonbonded cnb] ∧
    f.processForce st (Force.customGB cgb) = [Force.customGB cgb] :=
  ⟨rfl, rfl, rfl⟩

/-- C3 counterexample: constructing a factory over a three-particle system
with the out-of-range ligand index 5 succeeds and stores the index as-is —
construction does not fail eagerly, contradicting the claim. -/
theorem C3_out_of_range_ligand_counterexample :
    (AbsoluteAlchemicalFactory.init smallReferenceSystem [5]).ligand_atoms = [5] ∧
    smallReferenceSystem.particleMasses.length = 3 ∧
    ¬ (5 < smallReferenceSystem.particleMasses.length) :=
  ⟨rfl, rfl, by decide⟩

/-- C3 (amended): factory construction performs no validation whatsoever —
for every reference system and every ligand atom list (in range or not) it
succeeds, storing deep copies of both; an out-of-range ligand index is not
rejected at construction time. -/
theorem C3_construction_accepts_any_ligand (reference_system : OMMSystem) (ligand_atoms : List ℕ) :
    (AbsoluteAlchemicalFactory.init reference_system ligand_atoms).reference_system = reference_system ∧
    (AbsoluteAlchemicalFactory.init reference_system ligand_atoms).ligand_atoms = ligand_atoms :=
  ⟨rfl, rfl⟩

/-- C5: the complex-implicit protocol starts at the fully interacting state
`(0,1,1,1)`; the electrostatics factor is non-increasing across consecutive
states; every state has torsion factor 1 and restraint factor 0, and every
state with nonzero electrostatics has Lennard-Jones factor 1; from the
first discharged state on, the Lennard-Jones factor is non-increasing and
the final state's Lennard-Jones factor is 0. -/
theorem C5_complex_implicit_protocol_shape :
    AbsoluteAlchemicalFactory.defaultComplexProtocolImplicit.head? = some (mkAlchemicalState 0 1 1 1) ∧
    List.Chain' (fun a b => b.ligandElectrostatics ≤ a.ligandElectrostatics)
      AbsoluteAlchemicalFactory.defaultComplexProtocolImplicit ∧
    AbsoluteAlchemicalFactory.defaultComplexProtocolImplicit.Forall
      (fun s => s.ligandTorsions = 1 ∧ s.relativeRestraints = 0 ∧
        (s.ligandElectrostatics = 0 ∨ s.ligandLennardJones = 1)) ∧
    List.Chain' (fun a b => b.ligandLennardJones ≤ a.ligandLennardJones)
      (AbsoluteAlchemicalFactory.defaultComplexProtocolImplicit.dropWhile
        (fun s => decide (s.ligandElectrostatics ≠ 0))) ∧
    (AbsoluteAlchemicalFactory.defaultComplexProtocolImplicit.dropWhile
        (fun s => decide (s.ligandElectrostatics ≠ 0))).head? = some (mkAlchemicalState 0 0 1 1) ∧
    (AbsoluteAlchemicalFactory.defaultComplexProtocolImplicit.getLast?).map
        AlchemicalState.ligandLennardJones = some 0 := by
  norm_num [AbsoluteAlchemicalFactory.defaultComplexProtocolImplicit, mkAlchemicalState,
    List.chain'_cons, List.forall_cons, List.dropWhile, List.getLast?]

/-- C1: building at the fully interacting state `(0,1,1,1)` reproduces the
captured reference system exactly — same masses, constraints and box
vectors, and every force term (including the retained GB term and the
unscaled torsions) equal to the reference's, with no softcore replacement
terms added; consequently every energy evaluator returns the same value on
the built system as on the reference, at every coordinate set. -/
theorem C1_fully_interacting_build_equals_reference (f : AbsoluteAlchemicalFactory) :
    f.createPerturbedSystem (mkAlchemicalState 0 1 1 1) = f.reference_system ∧
    ∀ (energy : OMMSystem → List (ℚ × ℚ × ℚ) → ℚ) (coordinates : List (ℚ × ℚ × ℚ)),
      energy (f.createPerturbedSystem (mkAlchemicalState 0 1 1 1)) coordinates
        = energy f.reference_system coordinates := by
  have hforce : ∀ rf : Force, f.processForce (mkAlchemicalState 0 1 1 1) rf = [rf] := by
    intro rf
    cases rf with
    | periodicTorsion ts =>
        simp only [AbsoluteAlchemicalFactory.processForce, mkAlchemicalState]
        have hpt : ∀ t : PeriodicTorsion,
            (if t.particle1 ∈ f.ligand_atoms ∧ t.particle2 ∈ f.ligand_atoms ∧
                t.particle3 ∈ f.ligand_atoms ∧ t.particle4 ∈ f.ligand_atoms then
              { t with k := t.k * 1 }
            else t) = t := by
          intro t
          by_cases h : t.particle1 ∈ f.ligand_atoms ∧ t.particle2 ∈ f.ligand_atoms ∧
              t.particle3 ∈ f.ligand_atoms ∧ t.particle4 ∈ f.ligand_atoms
          · rw [if_pos h, mul_one]
          · rw [if_neg h]
        simp [hpt]
    | nonbonded nb =>
        simp [AbsoluteAlchemicalFactory.processForce, mkAlchemicalState]
    | gbsaobc gb =>
        simp [AbsoluteAlchemicalFactory.processForce, mkAlchemicalState]
    | customExternal d => rfl
    | customBond d => rfl
    | customNonbonded d => rfl
    | customGB d => rfl
    | other tag payload => rfl
  have hbind : f.reference_system.forces.bind (f.processForce (mkAlchemicalState 0 1 1 1))
      = f.reference_system.forces := by
    rw [show f.processForce (mkAlchemicalState 0 1 1 1) = fun rf => [rf] from funext hforce]
    induction f.reference_system.forces with
    | nil => rfl
    | cons x t ih => simp [ih]
  have hsys : f.createPerturbedSystem (mkAlchemicalState 0 1 1 1) = f.reference_system := by
    show ({ boxVectors := f.reference_system.boxVectors
            particleMasses := f.reference_system.particleMasses
            constraints := f.reference_system.constraints
            forces := f.reference_system.forces.bind
              (AbsoluteAlchemicalFactory.processForce f (mkAlchemicalState 0 1 1 1)) } : OMMSystem)
        = f.reference_system
    rw [hbind]
  exact ⟨hsys, fun energy coordinates => by rw [hsys]⟩

/-- A two-particle nonbonded force with a single exception whose epsilon is
nonzero, used to exercise the softcore Lennard-Jones exception handling. -/
def exampleLJNonbonded : NonbondedForceData :=
  { particles := [ { charge := 0, sigma := 1, epsilon := 1 }, { charge := 0, sigma := 1, epsilon := 1 } ]
    exceptions := [ { iatom := 0, jatom := 1, chargeprod := 0, sigma := 1, epsilon := 3 } ]
    method := NonbondedMethod.NoCutoff
    cutoff := 1 }

/-- Alchemical state with `ligandLennardJones = 1/2` and
`annihilateLennardJones` switched on after construction. -/
def annihilatingHalfLJState : AlchemicalState :=
  { mkAlchemicalState 0 1 (1 / 2) 1 with annihilateLennardJones := true }

/-- C4 counterexample: with ligand `[0]`, the single exception of
`exampleLJNonbonded` touches exactly one ligand atom; the builder (run with
`annihilateLennardJones` set) adds its exclusion but leaves the exception's
epsilon at 3 — it is not set to zero, contradicting the claim that every
exception's epsilon is zeroed regardless of ligand membership. -/
theorem C4_exception_epsilon_counterexample :
    (AbsoluteAlchemicalFactory.alchemicallyModifyLennardJones exampleLJNonbonded [0]
        annihilatingHalfLJState).custom_nonbonded_force.exclusions = [(0, 1)] ∧
    ((AbsoluteAlchemicalFactory.alchemicallyModifyLennardJones exampleLJNonbonded [0]
        annihilatingHalfLJState).nonbonded_force.exceptions.getD 0 default).epsilon = 3 ∧
    ¬ ((AbsoluteAlchemicalFactory.alchemicallyModifyLennardJones exampleLJNonbonded [0]
        annihilatingHalfLJState).nonbonded_force.exceptions.getD 0 default).epsilon = 0 := by
  decide

/-- C4 (amended): the softcore Lennard-Jones builder adds an exclusion to
the new pairwise term for every exception of the original nonbonded term,
unconditionally; but an exception's epsilon in the original term is zeroed
(and a softcore bond added for it) only when `annihilateLennardJones` is set
and both atoms are ligand atoms — all other exceptions keep their epsilon. -/
theorem C4_exception_exclusion_and_epsilon (nb : NonbondedForceData) (alch : List ℕ) (st : AlchemicalState) :
    (AbsoluteAlchemicalFactory.alchemicallyModifyLennardJones nb alch st).custom_nonbonded_force.exclusions
      = nb.exceptions.map (fun e => (e.iatom, e.jatom)) ∧
    (AbsoluteAlchemicalFactory.alchemicallyModifyLennardJones nb alch st).nonbonded_force.exceptions
      = nb.exceptions.map (fun e =>
          if st.annihilateLennardJones ∧ e.iatom ∈ alch ∧ e.jatom ∈ alch then
            { e with epsilon := e.epsilon * 0 }
          else e) ∧
    (st.annihilateLennardJones = false →
      (AbsoluteAlchemicalFactory.alchemicallyModifyLennardJones nb alch st).custom_bond_force = none) ∧
    (st.annihilateLennardJones = true →
      (AbsoluteAlchemicalFactory.alchemicallyModifyLennardJones nb alch st).custom_bond_force
        = some
            { energy := customBondEnergyExpression
              globals := [("lennard_jones_lambda", st.ligandLennardJones)]
              perBondParams := ["sigma", "epsilon"]
              bonds :=
                (nb.exceptions.filter (fun e => decide (e.iatom ∈ alch ∧ e.jatom ∈ alch))).map
                  (fun e => (e.iatom, e.jatom, [e.sigma, e.epsilon])) }) := by
  refine ⟨lj_exclusions_spec nb alch st, lj_exceptions_spec nb alch st, ?_, ?_⟩
  · intro hF
    rw [lj_custom_bond_spec, if_neg (by simp [hF])]
  · intro hT
    rw [lj_custom_bond_spec, if_pos hT]
    have hfilter :
        nb.exceptions.filter (fun e => decide (st.annihilateLennardJones ∧ e.iatom ∈ alch ∧ e.jatom ∈ alch))
          = nb.exceptions.filter (fun e => decide (e.iatom ∈ alch ∧ e.jatom ∈ alch)) := by
      apply List.filter_congr
      intro e _
      simp [hT]
    rw [hfilter]

/-- C4 witness: concrete instantiation of the amended claim — with the flag
unset no softcore bond force exists, and the exclusion list of the concrete
example is exactly its exception pair list. -/
theorem C4_exception_exclusion_and_epsilon_witness :
    (AbsoluteAlchemicalFactory.alchemicallyModifyLennardJones exampleLJNonbonded [0]
        (mkAlchemicalState 0 1 (1 / 2) 1)).custom_bond_force = none ∧
    (AbsoluteAlchemicalFactory.alchemicallyModifyLennardJones exampleLJNonbonded [0]
        (mkAlchemicalState 0 1 (1 / 2) 1)).custom_nonbonded_force.exclusions = [(0, 1)] := by
  have h := C4_exception_exclusion_and_epsilon exampleLJNonbonded [0] (mkAlchemicalState 0 1 (1 / 2) 1)
  exact ⟨h.2.2.1 rfl, h.1.trans (by decide)⟩

/-- A three-particle nonbonded force with a ligand-ligand exception and a
mixed (one-ligand) exception, for ligand `[0, 1]`. -/
def exampleNonbondedForce : NonbondedForceData :=
  { particles :=
      [ { charge := 1 / 2, sigma := 3, epsilon := 2 }
      , { charge := -1 / 2, sigma := 1, epsilon := 1 }
      , { charge := 1 / 4, sigma := 1, epsilon := 1 } ]
    exceptions :=
      [ { iatom := 0, jatom := 1, chargeprod := 5, sigma := 2, epsilon := 3 }
      , { iatom := 1, jatom := 2, chargeprod := 7, sigma := 2, epsilon := 3 } ]
    method := NonbondedMethod.NoCutoff
    cutoff := 1 }

/-- Factory over a system holding `exampleNonbondedForce`, ligand `[0,1]`. -/
def exampleNonbondedFactory : AbsoluteAlchemicalFactory :=
  AbsoluteAlchemicalFactory.init
    { particleMasses := [16, 1, 1]
      constraints := []
      boxVectors := ((2, 0, 0), (0, 2, 0), (0, 0, 2))
      forces := [Force.nonbonded exampleNonbondedForce] }
    [0, 1]

/-- C6: when the build runs with `ligandElectrostatics ≠ 1` (and the
Lennard-Jones factor is 1, so only the electrostatics step touches the
copied nonbonded term), every ligand particle's charge is multiplied by the
factor with sigma and epsilon untouched and non-ligand particles unchanged;
a ligand-ligand exception's charge product is multiplied by the squared
factor exactly when `annihilateElectrostatics` is set, and every other
exception — in particular one touching exactly one ligand atom — is
unchanged. -/
theorem C6_electrostatics_scaling (f : AbsoluteAlchemicalFactory) (st : AlchemicalState)
    (nb : NonbondedForceData) (h : st.ligandElectrostatics ≠ 1) :
    (st.ligandLennardJones = 1 →
      f.processForce st (Force.nonbonded nb)
        = [Force.nonbonded (AbsoluteAlchemicalFactory.modifyElectrostatics f.ligand_atoms st nb)]) ∧
    (∀ i, i < nb.particles.length →
      (AbsoluteAlchemicalFactory.modifyElectrostatics f.ligand_atoms st nb).particles.getD i default
        = (if i ∈ f.ligand_atoms then
            { nb.particles.getD i default with
              charge := (nb.particles.getD i default).charge * st.ligandElectrostatics }
          else nb.particles.getD i default)) ∧
    (∀ j, j < nb.exceptions.length →
      (AbsoluteAlchemicalFactory.modifyElectrostatics f.ligand_atoms st nb).exceptions.getD j default
        = (if (nb.exceptions.getD j default).iatom ∈ f.ligand_atoms ∧
              (nb.exceptions.getD j default).jatom ∈ f.ligand_atoms then
            (if st.annihilateElectrostatics then
              { nb.exceptions.getD j default with
                chargeprod :=
                  (nb.exceptions.getD j default).chargeprod * st.ligandElectrostatics ^ 2 }
            else nb.exceptions.getD j default)
          else nb.exceptions.getD j default)) := by
  refine ⟨?_, ?_, ?_⟩
  · intro hLJ
    simp [AbsoluteAlchemicalFactory.processForce, h, hLJ]
  · intro i hi
    rw [modifyElectrostatics_particles_spec,
      mapIdxFrom_getD _ default default 0 nb.particles i hi, Nat.zero_add]
    by_cases hm : i ∈ f.ligand_atoms
    · rw [if_pos hm, if_pos hm]
    · rw [if_neg hm, if_neg hm]
  · intro j hj
    rw [modifyElectrostatics_exceptions_spec,
      getD_map_of_lt _ default default nb.exceptions j hj]
    by_cases hm : (nb.exceptions.getD j default).iatom ∈ f.ligand_atoms ∧
        (nb.exceptions.getD j default).jatom ∈ f.ligand_atoms
    · rw [if_pos hm, if_pos hm]
      by_cases ha : st.annihilateElectrostatics
      · rw [if_pos ha, if_pos ha]
      · rw [if_neg ha, if_neg ha]
    · rw [if_neg hm, if_neg hm]

/-- C6 witness: at `ligandElectrostatics = 1/2` on the concrete example
(ligand `[0,1]`, annihilation on by default), the build applies exactly the
electrostatics step, ligand particle 0's charge is halved with sigma and
epsilon untouched, and the mixed exception keeps its charge product. -/
theorem C6_electrostatics_scaling_witness :
    exampleNonbondedFactory.processForce (mkAlchemicalState 0 (1 / 2) 1 1)
        (Force.nonbonded exampleNonbondedForce)
      = [Force.nonbonded (AbsoluteAlchemicalFactory.modifyElectrostatics [0, 1]
          (mkAlchemicalState 0 (1 / 2) 1 1) exampleNonbondedForce)] ∧
    (AbsoluteAlchemicalFactory.modifyElectrostatics [0, 1] (mkAlchemicalState 0 (1 / 2) 1 1)
        exampleNonbondedForce).particles.getD 0 default
      = { charge := 1 / 4, sigma := 3, epsilon := 2 } ∧
    (AbsoluteAlchemicalFactory.modifyElectrostatics [0, 1] (mkAlchemicalState 0 (1 / 2) 1 1)
        exampleNonbondedForce).exceptions.getD 1 default
      = { iatom := 1, jatom := 2, chargeprod := 7, sigma := 2, epsilon := 3 } := by
  have h := C6_electrostatics_scaling exampleNonbondedFactory (mkAlchemicalState 0 (1 / 2) 1 1)
    exampleNonbondedForce (by norm_num [mkAlchemicalState])
  refine ⟨h.1 rfl, (h.2.1 0 (by decide)).trans ?_, (h.2.2 1 (by decide)).trans ?_⟩
  · norm_num [exampleNonbondedFactory, AbsoluteAlchemicalFactory.init, exampleNonbondedForce,
      mkAlchemicalState]
  · norm_num [exampleNonbondedFactory, AbsoluteAlchemicalFactory.init, exampleNonbondedForce,
      mkAlchemicalState]

/-- Three torsions: one fully inside ligand `[0,1,2,3]`, one crossing the
ligand boundary, one fully outside. -/
def exampleTorsions : List PeriodicTorsion :=
  [ { particle1 := 0, particle2 := 1, particle3 := 2, particle4 := 3, periodicity := 2, phase := 0, k := 10 }
  , { particle1 := 2, particle2 := 3, particle3 := 4, particle4 := 5, periodicity := 3, phase := 1 / 2, k := 8 }
  , { particle1 := 4, particle2 := 5, particle3 := 6, particle4 := 7, periodicity := 1, phase := 0, k := 6 } ]

/-- Factory over a system holding `exampleTorsions`, ligand `[0,1,2,3]`. -/
def exampleTorsionFactory : AbsoluteAlchemicalFactory :=
  AbsoluteAlchemicalFactory.init
    { particleMasses := [12, 12, 12, 12, 12, 12, 12, 12]
      constraints := []
      boxVectors := ((2, 0, 0), (0, 2, 0), (0, 0, 2))
      forces := [Force.periodicTorsion exampleTorsions] }
    [0, 1, 2, 3]

/-- C7: the torsion branch maps every torsion of the reference, and at each
index the result is the original torsion with its barrier height multiplied
by `ligandTorsions` (periodicity, phase and atoms untouched) when all four
atoms lie in the ligand set, and the torsion unchanged whenever any atom is
outside the ligand set (boundary-crossing or fully external torsions). -/
theorem C7_torsion_scaling_selectivity (f : AbsoluteAlchemicalFactory) (st : AlchemicalState)
    (ts : List PeriodicTorsion) :
    ∃ ts', f.processForce st (Force.periodicTorsion ts) = [Force.periodicTorsion ts'] ∧
      ts'.length = ts.length ∧
      ∀ i, i < ts.length →
        (((ts.getD i default).particle1 ∈ f.ligand_atoms ∧ (ts.getD i default).particle2 ∈ f.ligand_atoms ∧
            (ts.getD i default).particle3 ∈ f.ligand_atoms ∧ (ts.getD i default).particle4 ∈ f.ligand_atoms →
          ts'.getD i default
            = { ts.getD i default with k := (ts.getD i default).k * st.ligandTorsions }) ∧
        (¬ ((ts.getD i default).particle1 ∈ f.ligand_atoms ∧ (ts.getD i default).particle2 ∈ f.ligand_atoms ∧
            (ts.getD i default).particle3 ∈ f.ligand_atoms ∧ (ts.getD i default).particle4 ∈ f.ligand_atoms) →
          ts'.getD i default = ts.getD i default)) := by
  refine ⟨ts.map (fun t =>
      if t.particle1 ∈ f.ligand_atoms ∧ t.particle2 ∈ f.ligand_atoms ∧
          t.particle3 ∈ f.ligand_atoms ∧ t.particle4 ∈ f.ligand_atoms then
        { t with k := t.k * st.ligandTorsions }
      else t), ?_, ?_, ?_⟩
  · rfl
  · exact List.length_map _ _
  · intro i hi
    rw [getD_map_of_lt _ default default ts i hi]
    constructor
    · intro hall
      rw [if_pos hall]
    · intro hnot
      rw [if_neg hnot]

/-- C7 witness: with `ligandTorsions = 1/2` and ligand `[0,1,2,3]`, the
fully-ligand torsion's barrier 10 becomes 5 while the boundary and external
torsions are returned unchanged. -/
theorem C7_torsion_scaling_selectivity_witness :
    ∃ ts', exampleTorsionFactory.processForce (mkAlchemicalState 0 1 1 (1 / 2))
        (Force.periodicTorsion exampleTorsions) = [Force.periodicTorsion ts'] ∧
      ts'.getD 0 default
        = { particle1 := 0, particle2 := 1, particle3 := 2, particle4 := 3, periodicity := 2, phase := 0, k := 5 } ∧
      ts'.getD 1 default = exampleTorsions.getD 1 default ∧
      ts'.getD 2 default = exampleTorsions.getD 2 default := by
  obtain ⟨ts', heq, _, hfacts⟩ := C7_torsion_scaling_selectivity exampleTorsionFactory
    (mkAlchemicalState 0 1 1 (1 / 2)) exampleTorsions
  refine ⟨ts', heq, ((hfacts 0 (by decide)).1 (by decide)).trans ?_,
    (hfacts 1 (by decide)).2 (by decide), (hfacts 2 (by decide)).2 (by decide)⟩
  norm_num [exampleTorsions, mkAlchemicalState]

/-- C8: threading the factory through any finite sequence of build calls
returns it unchanged — the captured reference system and ligand set are
identical before and after — and the produced list is exactly the
independent, per-state builds: each output is a fresh value determined only
by the (unchanged) factory and its own state, sharing nothing mutable with
the reference or the other outputs. -/
theorem C8_reference_immutability (f : AbsoluteAlchemicalFactory) (alchemical_states : List AlchemicalState) :
    (f.createPerturbedSystems alchemical_states).1 = f ∧
    (f.createPerturbedSystems alchemical_states).2
      = alchemical_states.map f.createPerturbedSystem := by
  have hgen : ∀ (states : List AlchemicalState) (acc : List OMMSystem),
      states.foldl (fun a st => (a.1, a.2 ++ [a.1.createPerturbedSystem st])) (f, acc)
        = (f, acc ++ states.map f.createPerturbedSystem) := by
    intro states
    induction states with
    | nil => intro acc; simp
    | cons s t ih =>
        intro acc
        rw [List.foldl_cons]
        show t.foldl (fun a st => (a.1, a.2 ++ [a.1.createPerturbedSystem st]))
            (f, acc ++ [f.createPerturbedSystem s]) = _
        rw [ih (acc ++ [f.createPerturbedSystem s])]
        simp
  exact ⟨congrArg Prod.fst (hgen alchemical_states []),
    congrArg Prod.snd (hgen alchemical_states [])⟩

/-- C9: at the default softcore constants, for any `epsilon ≥ 0`,
`sigma > 0` and `0 ≤ lambda < 1`, the softcore denominator at contact
(`r = 0`) is strictly positive, so the guarded softcore pair energy is a
well-defined (finite) rational there; in contrast the unmodified
Lennard-Jones expression is undefined at `r = 0` and, for `epsilon > 0`,
diverges to `+∞` as `r → 0` from the right. -/
theorem C9_softcore_finite_at_contact (epsilon sigma lam : ℚ)
    (hε : 0 ≤ epsilon) (hσ : 0 < sigma) (h0 : 0 ≤ lam) (h1 : lam < 1) :
    0 < (1 / 2) * (1 - lam) ^ 1 + ((0 : ℚ) / sigma) ^ 1 ∧
    softcorePairEnergyChecked epsilon lam 0 sigma
      = some (softcorePairEnergy epsilon lam 0 sigma) ∧
    lennardJonesEnergyChecked epsilon sigma 0 = none ∧
    (0 < epsilon →
      Filter.Tendsto (fun r : ℚ => lennardJonesEnergy epsilon sigma r)
        (nhdsWithin 0 (Set.Ioi 0)) Filter.atTop) := by
  have hlam : (0 : ℚ) < 1 - lam := by linarith
  have hden : 0 < (1 / 2) * (1 - lam) ^ 1 + ((0 : ℚ) / sigma) ^ 1 := by
    rw [zero_div]
    simpa using mul_pos (by norm_num : (0 : ℚ) < 1 / 2) hlam
  refine ⟨hden, ?_, ?_, ?_⟩
  · unfold softcorePairEnergyChecked
    rw [if_neg hσ.ne', if_neg hden.ne']
  · unfold lennardJonesEnergyChecked
    rw [if_pos rfl]
  · intro hε'
    have h6 : Filter.Tendsto (fun t : ℚ => t ^ 6) Filter.atTop Filter.atTop :=
      Filter.tendsto_pow_atTop (by norm_num)
    have hA : Filter.Tendsto (fun t : ℚ => t ^ 6 - 1) Filter.atTop Filter.atTop := by
      simpa [sub_eq_add_neg] using Filter.tendsto_atTop_add_const_right Filter.atTop (-1 : ℚ) h6
    have hmul : Filter.Tendsto (fun t : ℚ => t ^ 6 * (t ^ 6 - 1)) Filter.atTop Filter.atTop :=
      h6.atTop_mul_atTop hA
    have hconst : Filter.Tendsto (fun t : ℚ => 4 * epsilon * (t ^ 6 * (t ^ 6 - 1)))
        Filter.atTop Filter.atTop :=
      Filter.Tendsto.const_mul_atTop (by positivity) hmul
    have hinv : Filter.Tendsto (fun r : ℚ => sigma / r) (nhdsWithin 0 (Set.Ioi 0)) Filter.atTop := by
      simpa [div_eq_mul_inv] using
        Filter.Tendsto.const_mul_atTop hσ (tendsto_inv_zero_atTop (𝕜 := ℚ))
    have hcomp := hconst.comp hinv
    refine hcomp.congr ?_
    intro r
    show 4 * epsilon * ((sigma / r) ^ 6 * ((sigma / r) ^ 6 - 1)) = lennardJonesEnergy epsilon sigma r
    unfold lennardJonesEnergy
    ring

/-- C9 witness: at `epsilon = 1`, `sigma = 1`, `lambda = 1/2`, the guarded
softcore energy at contact is defined and evaluates to the finite value
`33546240`, while the guarded Lennard-Jones expression at `r = 0` is
undefined. -/
theorem C9_softcore_finite_at_contact_witness :
    softcorePairEnergyChecked 1 (1 / 2) 0 1 = some (softcorePairEnergy 1 (1 / 2) 0 1) ∧
    softcorePairEnergy 1 (1 / 2) 0 1 = 33546240 ∧
    lennardJonesEnergyChecked 1 1 0 = none := by
  have h := C9_softcore_finite_at_contact 1 1 (1 / 2) (by norm_num) (by norm_num)
    (by norm_num) (by norm_num)
  refine ⟨h.2.1, ?_, h.2.2.1⟩
  norm_num [softcorePairEnergy, softcoreX]

/-- C10: the build output is independent of the state's
`relativeRestraints` factor — two states agreeing on the electrostatics,
Lennard-Jones and torsion factors and on both annihilation flags, but
differing arbitrarily in `relativeRestraints`, produce identical systems
(the restraints factor is stored on the state but never read during
construction). -/
theorem C10_restraints_independence (f : AbsoluteAlchemicalFactory) (s1 s2 : AlchemicalState)
    (he : s1.ligandElectrostatics = s2.ligandElectrostatics)
    (hlj : s1.ligandLennardJones = s2.ligandLennardJones)
    (ht : s1.ligandTorsions = s2.ligandTorsions)
    (hae : s1.annihilateElectrostatics = s2.annihilateElectrostatics)
    (halj : s1.annihilateLennardJones = s2.annihilateLennardJones) :
    f.createPerturbedSystem s1 = f.createPerturbedSystem s2 := by
  cases s1
  cases s2
  dsimp only at he hlj ht hae halj
  subst he
  subst hlj
  subst ht
  subst hae
  subst halj
  rfl

/-- C10 witness: on the concrete torsion factory, the builds at restraint
factors 0 and 1 (all other state components equal) coincide. -/
theorem C10_restraints_independence_witness :
    exampleTorsionFactory.createPerturbedSystem (mkAlchemicalState 0 (1 / 2) (1 / 2) (1 / 2))
      = exampleTorsionFactory.createPerturbedSystem (mkAlchemicalState 1 (1 / 2) (1 / 2) (1 / 2)) :=
  C10_restraints_independence exampleTorsionFactory _ _ rfl rfl rfl rfl rfl
